import Mathlib

/-!
# Verification of the Pond memory-store core

Shallow embedding of the Pond repository's memory-repository subsystem:
tag canonicalization (`src/pond/domain/tag.py`, `src/pond/services/embeddings.py`),
memory content validation and tag collection (`src/pond/domain/memory.py`),
the store pipeline, splash discovery and unified search scoring
(`src/pond/domain/repository.py`), tenant-name validation
(`src/pond/infrastructure/schema.py`, `database.py`) and API-key rotation
(`src/pond/infrastructure/auth.py`).

Python strings are modelled as Lean `String`s operated on through their
character lists; the external spaCy lemmatizer is an abstract parameter
(`Lemmatizer`); database tables are lists of rows; rational numbers stand
for the SQL numeric scores.
-/

namespace Pond

/-! ## Python string primitives -/

/-- Whitespace characters recognised by Python `str.strip()` (ASCII range). -/
def isSpaceChar (c : Char) : Bool :=
  c = ' ' || c = '\t' || c = '\n' || c = '\r' || c = '\x0b' || c = '\x0c'

/-- `str.lower()` on a single character (ASCII letters; other characters kept). -/
def pyLowerChar (c : Char) : Char :=
  if 'A' ≤ c ∧ c ≤ 'Z' then Char.ofNat (c.toNat + 32) else c

/-- Python `s.lower()`. -/
def pyLower (s : String) : String := ⟨s.data.map pyLowerChar⟩

/-- Strip characters satisfying `p` from both ends of a list. -/
def stripEnds (p : Char → Bool) (cs : List Char) : List Char :=
  ((cs.dropWhile p).reverse.dropWhile p).reverse

/-- Python `s.strip()`. -/
def pyStrip (s : String) : String := ⟨stripEnds isSpaceChar s.data⟩

/-- The character class `[a-z0-9-]` used by `re.sub(r"[^a-z0-9-]", "", ...)`. -/
def allowedChar (c : Char) : Bool :=
  ('a' ≤ c && c ≤ 'z') || ('0' ≤ c && c ≤ '9') || c = '-'

/-- `re.sub(r"[^a-z0-9-]", "", s)`: keep only `[a-z0-9-]` characters. -/
def keepAllowed (s : String) : String := ⟨s.data.filter allowedChar⟩

/-- Python `s.replace(" ", "-")` (single-character pattern, hence a map). -/
def spaceToHyphen (s : String) : String :=
  ⟨s.data.map (fun c => if c = ' ' then '-' else c)⟩

/-! ## The external lemmatizer (spaCy), as an abstract collaborator -/

/-- One spaCy token: its lemma and its stopword/punctuation flags. -/
structure Token where
  lemma_ : String
  is_stop : Bool
  is_punct : Bool
deriving DecidableEq

/-- The external lemmatizer capability: tokenize a text into tokens. -/
def Lemmatizer : Type := String → List Token

/-! ## Tag canonicalization (`Tag._normalize` in `src/pond/domain/tag.py`) -/

/-- The surviving lemmas of `Tag._normalize`: drop stopword and punctuation
tokens, strip each remaining lemma to `[a-z0-9-]`, drop the ones that become
empty. -/
def survivingLemmas (L : Lemmatizer) (text : String) : List String :=
  (L text).filterMap (fun t =>
    if t.is_stop || t.is_punct then none
    else
      let l := keepAllowed (pyStrip t.lemma_)
      if l = "" then none else some l)

/-- Lexicographic comparison of character lists by code point — Python's
string ordering, used by `sorted(...)`. -/
def charListLe : List Char → List Char → Bool
  | [], _ => true
  | _ :: _, [] => false
  | a :: as, b :: bs => if a = b then charListLe as bs else decide (a < b)

/-- Python `a <= b` on strings. -/
def strLe (a b : String) : Bool := charListLe a.data b.data

instance : DecidableRel (fun a b : String => strLe a b = true) :=
  fun _ _ => instDecidableEqBool _ _

/-- `sorted(lemmas)`: lexicographic sort of the lemma list. -/
def sortStrings (ls : List String) : List String :=
  List.insertionSort (fun a b => strLe a b = true) ls

/-- `"-".join(ls)`. -/
def joinHyphen (ls : List String) : String :=
  ⟨List.intercalate ['-'] (ls.map String.data)⟩

/-- `Tag._normalize` (`src/pond/domain/tag.py` lines 34-60), composed with the
strip performed by `Tag.__init__`: lowercase the stripped raw text; if empty
return `""`; lemmatize, discarding stopwords/punctuation and stripping each
lemma to `[a-z0-9-]`; if no lemma survives fall back to the cleaned original
(or, when even that is empty, the raw lowered text) with spaces replaced by
hyphens; otherwise sort the lemmas and join with `-`.
`SpacyTagEmbedder.embed` (`src/pond/services/embeddings.py` lines 92-135) is
textually the same algorithm and is modelled by this same function. -/
def Tag.normalize (L : Lemmatizer) (raw : String) : String :=
  let text := pyLower (pyStrip raw)
  if text = "" then ""
  else
    let lemmas := survivingLemmas L text
    if lemmas = [] then
      let cleaned := keepAllowed text
      if cleaned ≠ "" then spaceToHyphen cleaned else spaceToHyphen text
    else joinHyphen (sortStrings lemmas)

/-! ## Memory tag collection (`src/pond/domain/memory.py`) -/

/-- `Memory.add_tag`: insert the normalized form into the tag set. The
Python `set` of tags is modelled as a duplicate-free list; insertion adds
the canonical form only when it is not already present. -/
def addTag (L : Lemmatizer) (tags : List String) (raw : String) : List String :=
  let n := Tag.normalize L raw
  if n ∈ tags then tags else tags ++ [n]

/-- `Memory.add_tags`. -/
def addTags (L : Lemmatizer) (tags : List String) (raws : List String) : List String :=
  raws.foldl (addTag L) tags

/-- `Memory.get_tags`: the tag set as a sorted list (also the serialization
order used by `_store_in_db`). -/
def getTags (tags : List String) : List String :=
  List.insertionSort (fun a b => strLe a b = true) tags

/-! ## `EmbeddingService.embed_tags` (`src/pond/services/embeddings.py` lines 50-64) -/

/-- Loop of `embed_tags`: skip empty raw tags, canonicalize, skip empty or
already-seen canonical forms, otherwise keep in order. -/
def embedTagsGo (L : Lemmatizer) (seen : List String) : List String → List String
  | [] => []
  | t :: ts =>
    if t ≠ "" then
      let et := Tag.normalize L t
      if et ≠ "" ∧ et ∉ seen then et :: embedTagsGo L (et :: seen) ts
      else embedTagsGo L seen ts
    else embedTagsGo L seen ts

/-- `EmbeddingService.embed_tags`: canonicalize a list of raw tags,
deduplicating by canonical form, preserving first-occurrence order. -/
def embedTags (L : Lemmatizer) (tags : List String) : List String :=
  embedTagsGo L [] tags

/-- The nonempty canonical forms of the nonempty raw tags, in raw order
(with multiplicity) — the stream `embed_tags` deduplicates. -/
def canonList (L : Lemmatizer) (tags : List String) : List String :=
  ((tags.filter (fun t => t ≠ "")).map (Tag.normalize L)).filter (fun c => c ≠ "")

/-- Modelled from the spec: "deduplicates ... while preserving first-occurrence
order of distinct canonical values". `List.dedup` keeps the last occurrence of
each value, so first-occurrence deduplication is dedup of the reverse,
reversed. -/
def keepFirsts (l : List String) : List String :=
  l.reverse.dedup.reverse

/-- First-occurrence deduplication with an accumulator of already-seen
values — the shape of the `embed_tags` loop, used as a stepping stone
between `embedTags` and `keepFirsts`. -/
def dedupFrom (seen : List String) : List String → List String
  | [] => []
  | c :: cs => if c ∈ seen then dedupFrom seen cs else c :: dedupFrom (c :: seen) cs

/-! ## Content validation (`Memory._validate_content`, `src/pond/domain/memory.py` lines 37-63) -/

/-- `MAX_CONTENT_LENGTH` from `src/pond/domain/base.py`. -/
def MAX_CONTENT_LENGTH : Nat := 7500

/-- `Memory._validate_content`: reject empty content, whitespace-only content,
and content whose raw length exceeds `MAX_CONTENT_LENGTH`; return the content
unchanged otherwise. -/
def validateContent (content : String) : Except String String :=
  if content = "" then .error "Content cannot be empty"
  else
    let cleaned := pyStrip content
    if cleaned = "" then .error "Content cannot be only whitespace"
    else if content.length > MAX_CONTENT_LENGTH then
      .error "Content exceeds maximum length"
    else .ok content

/-! ## Tenant-name validation (`schema.py` lines 21-26, `database.py` lines 113-121) -/

/-- Python `str.isalnum()` on one character, restricted to code points below
`0x100` (the model's universe of characters): ASCII letters and digits,
the Latin-1 letters `ª µ º À-Ö Ø-ö ø-ÿ`, and the Latin-1 numerics
`² ³ ¹ ¼ ½ ¾`. Faithful to CPython for every character in this range. -/
def pyIsAlnumChar (c : Char) : Bool :=
  c.isAlphanum
    || c = 'ª' || c = 'µ' || c = 'º'
    || ('À' ≤ c && c ≤ 'Ö') || ('Ø' ≤ c && c ≤ 'ö') || ('ø' ≤ c && c ≤ 'ÿ')
    || c = '²' || c = '³' || c = '¹' || c = '¼' || c = '½' || c = '¾'

/-- Python `s.isalnum()`: nonempty and all characters alphanumeric. -/
def pyIsAlnum (s : String) : Bool :=
  !(s = "") && s.data.all pyIsAlnumChar

/-- Python `s.replace("_", "")`. -/
def removeUnderscores (s : String) : String :=
  ⟨s.data.filter (fun c => c ≠ '_')⟩

/-- The tenant-name check `tenant.replace("_", "").isalnum()` used by both
`ensure_tenant_schema` (`schema.py` line 22) and `DatabasePool.acquire_tenant`
(`database.py` line 116). -/
def validTenantName (t : String) : Bool :=
  pyIsAlnum (removeUnderscores t)

/-- `ensure_tenant_schema`: validate the tenant name, then issue the DDL with
the name interpolated directly into the statements. Returns the statements it
would execute (the model's image of the side effects). -/
def ensureTenantSchema (tenant : String) : Except String (List String) :=
  if !validTenantName tenant then .error ("Invalid tenant name: " ++ tenant)
  else .ok
    [ "CREATE SCHEMA IF NOT EXISTS " ++ tenant
    , "SET search_path TO " ++ tenant ++ ", public"
    , "CREATE TABLE IF NOT EXISTS memories (id SERIAL PRIMARY KEY, content TEXT NOT NULL, embedding vector(768), forgotten BOOLEAN DEFAULT false, metadata JSONB)" ]

/-- `DatabasePool.acquire_tenant`: validate the tenant name, then bind the
pooled connection to the tenant's schema. Returns the `SET search_path`
statement it would execute. -/
def acquireTenant (tenant : String) : Except String String :=
  if !validTenantName tenant then .error ("Invalid tenant name: " ++ tenant)
  else .ok ("SET search_path TO " ++ tenant ++ ", public")

/-- The character class `[A-Za-z0-9_]` the specification names. -/
def specTenantChar (c : Char) : Bool :=
  ('A' ≤ c && c ≤ 'Z') || ('a' ≤ c && c ≤ 'z') || ('0' ≤ c && c ≤ '9') || c = '_'

/-! ## Rows and the memories table -/

/-- An embedding vector (fixed-dimension float vector, modelled over `ℚ`). -/
def Vec : Type := List ℚ

deriving instance DecidableEq for Vec

/-- One row of a tenant's `memories` relation, with the metadata sub-fields
the search and splash queries read: `tags` (serialized sorted), `entities`
(text/type pairs) and `actions` (the lemmas; stored as `{"lemma": l}` objects). -/
structure Row where
  id : Nat
  content : String
  embedding : Option Vec
  forgotten : Bool
  tags : List String
  entities : List (String × String)
  actions : List String
deriving DecidableEq

/-! ## Feature signal of unified search (`MemoryRepository.search`, `repository.py` lines 606-628) -/

/-- The text PostgreSQL's `jsonb_array_elements_text` yields for a stored
action: actions are serialized by `Memory.add_action` as the object
`{"lemma": l}` (`entities.py` line 47), and `jsonb_array_elements_text`
renders a non-string element as its JSON text. -/
def actionJsonText (l : String) : String :=
  "\x7b\"lemma\": \"" ++ l ++ "\"\x7d"

/-- The `feature_search` WHERE clause: the lowered query equals the lowered
text of some tag, some entity text, or some element of the stored `actions`
array. -/
def featureMatch (r : Row) (qLower : String) : Bool :=
  r.tags.any (fun t => pyLower t = qLower)
    || r.entities.any (fun e => pyLower e.1 = qLower)
    || r.actions.any (fun a => pyLower (actionJsonText a) = qLower)

/-- The feature signal of unified search for one memory: `1.0` when the
`feature_search` CTE selects the row, `0` otherwise (missing signals are
`COALESCE`d to 0). -/
def featureScore (r : Row) (query : String) : ℚ :=
  if r.forgotten then 0
  else if featureMatch r (pyLower query) then 1 else 0

/-! ## Splash discovery (`MemoryRepository._get_splash`, `repository.py` lines 485-527) -/

/-- Distance of a row to the query vector, as used by `ORDER BY embedding <=> $1`
(rows reaching the ordering all have an embedding; `0` is a don't-care default). -/
def distOf (d : Vec → Vec → ℚ) (v : Vec) (r : Row) : ℚ :=
  match r.embedding with
  | some w => d w v
  | none => 0

/-- `_get_splash`: if the new memory has no embedding return `[]`; otherwise
select the non-forgotten rows with an embedding whose cosine distance to the
new embedding is `< 0.3` and `> 0.1`, order by distance ascending, limit 3.
The distance operator `<=>` is the external pgvector primitive, passed in
as `d`. -/
def getSplash (d : Vec → Vec → ℚ) (table : List Row) (memory : Row) : List Row :=
  match memory.embedding with
  | none => []
  | some v =>
    ((List.insertionSort (fun a b => distOf d v a ≤ distOf d v b)
        (table.filter (fun r =>
          !r.forgotten
            && (match r.embedding with
                | some w => decide (d w v < Rat.divInt 3 10) && decide (d w v > Rat.divInt 1 10)
                | none => false)))).take 3)

/-! ## The store pipeline (`MemoryRepository.store`, `repository.py` lines 72-277) -/

/-- Output of the external feature extractor for one content string: the
entities and action lemmas found, and the auto-tag candidates the
NLP-dependent selection of `_extract_features_sync` produces. -/
structure Extraction where
  entities : List (String × String)
  actions : List String
  autoTags : List String

/-- Append items to a list deduplicating by equality of the serialized entry,
as `Memory.add_entity` / `Memory.add_action` do. -/
def dedupAppend {α : Type} [DecidableEq α] (acc : List α) : List α → List α
  | [] => acc
  | x :: xs => if x ∈ acc then dedupAppend acc xs else dedupAppend (acc ++ [x]) xs

/-- The collaborators and fallible effects `store` composes: the lemmatizer,
the feature extractor, the embedding provider, and the splash query effect
(which runs the `_get_splash` SQL and may fail with a database error). -/
structure Env where
  L : Lemmatizer
  extract : String → Except String Extraction
  embed : String → Except String Vec
  splashQuery : List Row → Row → Except String (List Row)

/-- Errors surfaced by the store pipeline. -/
inductive StoreErr where
  | validation (msg : String)
  | extraction (msg : String)
  | embedding (msg : String)
deriving DecidableEq

/-- The committed `memories` table of one tenant together with the next
`SERIAL` id. -/
structure Db where
  rows : List Row
  nextId : Nat
deriving DecidableEq

/-- `MemoryRepository.store`, steps in source order: validate the content,
canonicalize and add the user tags, extract features (entities, actions,
auto-tags merged through the same tag canonicalization), get the embedding —
any failure so far aborts with the error and no database write — then insert
the row (obtaining its id), run splash discovery (a failure here degrades to
an empty splash list), and return the persisted row with the splash list.
The final memory-count refresh touches only a metrics gauge and is not part
of the stored state. -/
def store (env : Env) (db : Db) (content : String) (userTags : List String) :
    Except StoreErr (Row × List Row) × Db :=
  match validateContent content with
  | .error e => (.error (.validation e), db)
  | .ok c =>
    let tags0 := addTags env.L [] userTags
    match env.extract c with
    | .error e => (.error (.extraction e), db)
    | .ok fx =>
      let tags1 := addTags env.L tags0 fx.autoTags
      match env.embed c with
      | .error e => (.error (.embedding e), db)
      | .ok v =>
        let row : Row :=
          { id := db.nextId
            content := c
            embedding := some v
            forgotten := false
            tags := getTags tags1
            entities := dedupAppend [] fx.entities
            actions := dedupAppend [] fx.actions }
        let db1 : Db := { rows := db.rows ++ [row], nextId := db.nextId + 1 }
        let splash :=
          match env.splashQuery db1.rows row with
          | .ok l => l
          | .error _ => []
        (.ok (row, splash), db1)

/-! ## API keys (`APIKeyManager`, `src/pond/infrastructure/auth.py`) -/

/-- One row of a tenant's `api_keys` relation. -/
structure Key where
  id : Nat
  hash : String
  active : Bool
deriving DecidableEq

/-- The atomic conditional update of `validate_key` (`auth.py` lines 81-92):
`UPDATE api_keys SET last_used = NOW() WHERE key_hash = $1 AND active = true`
affects a row exactly when an active key with that hash exists. -/
def validateKey (keys : List Key) (hash : String) : Bool :=
  keys.any (fun k => k.hash = hash && k.active)

/-- `UPDATE api_keys SET active = false WHERE active = true`. -/
def deactivateAll (keys : List Key) : List Key :=
  keys.map (fun k => { k with active := false })

/-- The sequence of committed database states produced by
`rotate_key(tenant)` with no old key (`auth.py` lines 96-134), given the
hash and id of the key `create_key` issues.

`rotate_key` opens a transaction on its pooled connection and runs the
deactivating UPDATE inside it, but then calls `create_key`, which acquires a
*second* connection from the pool (`auth.py` line 41) and inserts the new key
there in autocommit mode — outside the transaction. The committed states seen
by the database are therefore: the initial state; the state after
`create_key`'s insert commits (old keys still active, new key already
active); and the state after the rotation transaction commits its
deactivation. -/
def rotateNoOldTrace (keys : List Key) (newHash : String) (newId : Nat) : List (List Key) :=
  [ keys
  , keys ++ [⟨newId, newHash, true⟩]
  , deactivateAll keys ++ [⟨newId, newHash, true⟩] ]

/-- Modelled from the spec: "inside one transaction, deactivates ... all
active keys for the tenant, then issues a new one" — a single transaction
commits the deactivation and the insert together, so the only committed
states are the initial and the final one. -/
def rotateSpecTrace (keys : List Key) (newHash : String) (newId : Nat) : List (List Key) :=
  [ keys
  , deactivateAll keys ++ [⟨newId, newHash, true⟩] ]

/-! ## A concrete lemmatizer for witnesses and counterexamples

A small deterministic stand-in for spaCy: tokenize on spaces, keep each
word's text as its own lemma, and flag a token as punctuation exactly when
it contains no alphanumeric character — which is how spaCy treats
punctuation-only tokens such as `"!"` or `"-"`. -/

/-- Split a character list into space-separated words, dropping empties. -/
def splitWordsAux : List Char → List Char → List (List Char)
  | cur, [] => if cur = [] then [] else [cur.reverse]
  | cur, c :: rest =>
    if c = ' ' then
      if cur = [] then splitWordsAux [] rest
      else cur.reverse :: splitWordsAux [] rest
    else splitWordsAux (c :: cur) rest

/-- The space-separated words of a string. -/
def splitWords (s : String) : List (List Char) :=
  splitWordsAux [] s.data

/-- The concrete test lemmatizer described above. -/
def spacyLike : Lemmatizer :=
  fun s => (splitWords s).map (fun w =>
    { lemma_ := ⟨w⟩
      is_stop := false
      is_punct := w.all (fun c => !c.isAlphanum) })

/-! ## Concrete fixtures for witnesses and counterexamples -/

/-- The string of one `'a'` followed by `MAX_CONTENT_LENGTH` spaces: trimmed
length 1, raw length `MAX_CONTENT_LENGTH + 1`. -/
def overlongPadded : String := ⟨'a' :: List.replicate MAX_CONTENT_LENGTH ' '⟩

/-- The spec's injection example `"tenant'; DROP TABLE memories; --"`. -/
def injectionName : String :=
  "tenant" ++ ⟨['\x27']⟩ ++ "; DROP TABLE memories; --"

/-- A store environment whose embedding provider is down and everything else
works. -/
def failingEmbedEnv : Env :=
  { L := spacyLike
    extract := fun _ => .ok { entities := [], actions := [], autoTags := [] }
    embed := fun _ => .error "service unreachable"
    splashQuery := fun _ _ => .ok [] }

/-- A store environment where only the splash-discovery query fails. -/
def failingSplashEnv : Env :=
  { L := spacyLike
    extract := fun _ => .ok { entities := [], actions := [], autoTags := [] }
    embed := fun _ => .ok [1]
    splashQuery := fun _ _ => .error "connection reset" }

/-- An empty tenant database. -/
def emptyDb : Db := { rows := [], nextId := 1 }

/-- A row whose only searchable feature is the action lemma `"steal"`. -/
def actionOnlyRow : Row :=
  { id := 1, content := "Sparkle stole pizza from the counter", embedding := none,
    forgotten := false, tags := [], entities := [], actions := ["steal"] }

/-- A row carrying the canonical tag `"steal"`. -/
def tagOnlyRow : Row :=
  { id := 2, content := "c", embedding := none,
    forgotten := false, tags := ["steal"], entities := [], actions := [] }

/-- A splash-distance function with self-distance zero and distance `1/5`
(inside the donut) between distinct vectors. -/
def donutDist : Vec → Vec → ℚ :=
  fun w v => if w = v then 0 else Rat.divInt 1 5

/-- An existing committed row with an embedding. -/
def splashRow : Row :=
  { id := 1, content := "Sparkle stole pizza from the counter",
    embedding := some [1], forgotten := false, tags := [], entities := [], actions := [] }

/-- The newly stored row splash discovery runs for. -/
def newRow : Row :=
  { id := 2, content := "Sparkle stole bacon this morning",
    embedding := some [2], forgotten := false, tags := [], entities := [], actions := [] }

/-! # Theorems -/

/-! ## Helper lemmas -/

theorem dropWhile_replicate_append (p : Char → Bool) (c : Char) (h : p c = true) :
    ∀ (n : Nat) (l : List Char),
      List.dropWhile p (List.replicate n c ++ l) = List.dropWhile p l := by
  intro n
  induction n with
  | zero => simp
  | succ n ih => intro l; simp [List.replicate_succ, List.dropWhile_cons, h, ih]

theorem pyStrip_overlongPadded : pyStrip overlongPadded = "a" := by
  have ha : isSpaceChar 'a' = false := by decide
  show String.mk _ = _
  rw [show ("a" : String) = ⟨['a']⟩ from rfl]
  simp only [overlongPadded, pyStrip, stripEnds, List.dropWhile_cons, ha,
    Bool.false_eq_true, if_false, List.reverse_cons, List.reverse_replicate,
    dropWhile_replicate_append isSpaceChar ' ' rfl, List.nil_append,
    List.reverse_nil]

theorem validateContent_overlongPadded :
    validateContent overlongPadded = .error "Content exceeds maximum length" := by
  have h1 : overlongPadded ≠ "" := by simp [overlongPadded, String.ext_iff]
  have h2 : pyStrip overlongPadded ≠ "" := by
    rw [pyStrip_overlongPadded]; decide
  have h3 : overlongPadded.length > MAX_CONTENT_LENGTH := by
    show ('a' :: List.replicate MAX_CONTENT_LENGTH ' ').length > MAX_CONTENT_LENGTH
    rw [List.length_cons, List.length_replicate]
    omega
  unfold validateContent
  rw [if_neg h1, if_neg h2, if_pos h3]

theorem one_le_strLength_iff (s : String) : 1 ≤ s.length ↔ s ≠ "" := by
  cases s with
  | mk data =>
    show 1 ≤ data.length ↔ _
    rw [Ne, String.ext_iff]
    show _ ↔ ¬data = []
    constructor
    · intro h hnil; subst hnil; simp at h
    · intro h; exact Nat.succ_le_of_lt (List.length_pos.2 h)

/-! ## C6 — content validation bounds -/

/-- C6, counterexample: the claim says construction succeeds exactly when the
*trimmed* content has length 1–7500 "regardless of surrounding whitespace",
but `_validate_content` checks `len(content)` on the raw string: a one-letter
content padded with 7500 trailing spaces has trimmed length 1 yet is
rejected. -/
theorem c6_counterexample :
    1 ≤ (pyStrip overlongPadded).length
      ∧ (pyStrip overlongPadded).length ≤ MAX_CONTENT_LENGTH
      ∧ validateContent overlongPadded ≠ .ok overlongPadded := by
  rw [pyStrip_overlongPadded, validateContent_overlongPadded]
  refine ⟨by decide, by decide, ?_⟩
  intro h
  exact Except.noConfusion h

/-- C6, amended: constructing a Memory succeeds exactly when the trimmed
content is nonempty and the *raw* content length is at most 7500; a
validation failure aborts `store` before any side effect (the stored state
is returned unchanged). -/
theorem c6_amended :
    (∀ c : String,
        validateContent c = .ok c
          ↔ 1 ≤ (pyStrip c).length ∧ c.length ≤ MAX_CONTENT_LENGTH)
    ∧ (∀ (env : Env) (db : Db) (c : String) (ut : List String) (e : String),
        validateContent c = .error e →
          store env db c ut = (.error (.validation e), db)) := by
  constructor
  · intro c
    rw [one_le_strLength_iff]
    unfold validateContent
    by_cases h1 : c = ""
    · subst h1
      simp [pyStrip, stripEnds]
    · rw [if_neg h1]
      by_cases h2 : pyStrip c = ""
      · rw [if_pos h2]
        simp [h2]
      · rw [if_neg h2]
        by_cases h3 : c.length > MAX_CONTENT_LENGTH
        · rw [if_pos h3]
          constructor
          · intro h; exact Except.noConfusion h
          · intro h; omega
        · rw [if_neg h3]
          simp [h2]
          omega
  · intro env db c ut e he
    unfold store
    rw [he]

/-- Witness for `c6_amended`: `"hello"` is accepted, and an empty content
aborts `store` with the validation error leaving the database unchanged. -/
theorem c6_amended_witness :
    (validateContent "hello" = .ok "hello"
      ↔ 1 ≤ (pyStrip "hello").length ∧ "hello".length ≤ MAX_CONTENT_LENGTH)
    ∧ store failingEmbedEnv emptyDb "" []
        = (.error (.validation "Content cannot be empty"), emptyDb) :=
  ⟨c6_amended.1 "hello",
   c6_amended.2 failingEmbedEnv emptyDb "" [] "Content cannot be empty" rfl⟩

/-! ## C3 — tenant-name validation -/

/-- C3, counterexample: the claim says every string containing a character
outside `[A-Za-z0-9_]` — "including, for some inputs, non-ASCII letters" —
is rejected by every entry point. But the check is Python `isalnum()`, which
accepts Unicode alphanumerics: `"café"` contains `'é' ∉ [A-Za-z0-9_]` yet
both schema creation and tenant connection acquisition accept it and
interpolate it into SQL. -/
theorem c3_counterexample :
    (∃ c ∈ ("café" : String).data, specTenantChar c = false)
      ∧ (ensureTenantSchema "café").isOk = true
      ∧ (acquireTenant "café").isOk = true := by
  decide

/-- C3, amended: both entry points (schema creation and tenant-scoped
connection acquisition; key-validation routing goes through the latter)
reject, before producing any SQL, every tenant name containing a character
that is neither an underscore nor Python-alphanumeric. Names made of Unicode
alphanumerics outside `[A-Za-z0-9]` are however accepted, so the enforced
class is wider than the `[A-Za-z0-9_]+` the claim states. -/
theorem c3_amended (t : String)
    (h : ∃ c ∈ t.data, pyIsAlnumChar c = false ∧ c ≠ '_') :
    ensureTenantSchema t = .error ("Invalid tenant name: " ++ t)
      ∧ acquireTenant t = .error ("Invalid tenant name: " ++ t) := by
  obtain ⟨c, hc, hbad, hu⟩ := h
  have hv : validTenantName t = false := by
    unfold validTenantName pyIsAlnum removeUnderscores
    have hmem : c ∈ t.data.filter (fun x => decide (x ≠ '_')) :=
      List.mem_filter.2 ⟨hc, by simp [hu]⟩
    cases hall : (t.data.filter (fun x => decide (x ≠ '_'))).all pyIsAlnumChar with
    | false => simp [hall]
    | true =>
      have := List.all_eq_true.1 hall c hmem
      rw [hbad] at this
      exact Bool.noConfusion this
  constructor
  · unfold ensureTenantSchema
    rw [hv]
    rfl
  · unfold acquireTenant
    rw [hv]
    rfl

/-- Witness for `c3_amended`: the two names the specification uses as
examples — `"tenant'; DROP TABLE memories; --"` and `"tenant-name"` — are
rejected by both entry points. -/
theorem c3_amended_witness :
    (ensureTenantSchema injectionName = .error ("Invalid tenant name: " ++ injectionName)
      ∧ acquireTenant injectionName = .error ("Invalid tenant name: " ++ injectionName))
    ∧ (ensureTenantSchema "tenant-name" = .error ("Invalid tenant name: " ++ "tenant-name")
      ∧ acquireTenant "tenant-name" = .error ("Invalid tenant name: " ++ "tenant-name")) :=
  ⟨c3_amended injectionName (by decide), c3_amended "tenant-name" (by decide)⟩

/-! ## C4 — feature signal of unified search -/

/-- C4, code bug: `Memory.add_action` serializes each action as the JSONB
object `{"lemma": l}`, but the `feature_search` CTE reads the actions array
with `jsonb_array_elements_text` and compares the *whole element text* with
the query. A non-forgotten memory whose only feature is the action lemma
`"steal"` therefore receives feature score `0` for the query `"steal"`,
while the claim (and the query's own comment, "Check if query matches any
action") requires `1.0`; the same query matched against a canonical tag
does yield `1.0`, isolating the defect to the actions branch. -/
theorem c4_action_score_is_zero :
    actionOnlyRow.forgotten = false
      ∧ actionOnlyRow.actions = ["steal"]
      ∧ featureScore actionOnlyRow "steal" = 0
      ∧ featureScore tagOnlyRow "steal" = 1 := by
  decide

/-! ## C7 — key rotation atomicity -/

/-- C7, code bug: `rotate_key` opens a transaction on its pooled connection
and runs the deactivating `UPDATE` inside it, but then calls `create_key`,
which acquires a *second* pooled connection and inserts the new key there in
autocommit mode — outside the transaction. Starting from one active key
`"h1"`, the committed-state trace of `rotate(tenant)` therefore contains an
intermediate state, distinct from both the initial and the final state, in
which the old key still validates and the new key is already active: a
partial failure (or a concurrent `validate`) observes a committed key-state
change, contradicting the claim's "inside one transaction ... if rotate
fails partway no key state change is committed". The single-transaction
behaviour the claim describes would produce only the initial and final
states. -/
theorem c7_rotate_insert_escapes_transaction :
    rotateNoOldTrace [⟨1, "h1", true⟩] "h2" 2
        = [ [⟨1, "h1", true⟩]
          , [⟨1, "h1", true⟩, ⟨2, "h2", true⟩]
          , [⟨1, "h1", false⟩, ⟨2, "h2", true⟩] ]
      ∧ ([⟨1, "h1", true⟩, (⟨2, "h2", true⟩ : Key)] ≠ [⟨1, "h1", true⟩])
      ∧ ([⟨1, "h1", true⟩, (⟨2, "h2", true⟩ : Key)] ≠ [⟨1, "h1", false⟩, ⟨2, "h2", true⟩])
      ∧ validateKey [⟨1, "h1", true⟩, ⟨2, "h2", true⟩] "h1" = true
      ∧ validateKey [⟨1, "h1", false⟩, ⟨2, "h2", true⟩] "h1" = false
      ∧ validateKey [⟨1, "h1", false⟩, ⟨2, "h2", true⟩] "h2" = true
      ∧ rotateSpecTrace [⟨1, "h1", true⟩] "h2" 2
          = [ [⟨1, "h1", true⟩], [⟨1, "h1", false⟩, ⟨2, "h2", true⟩] ] := by
  decide

/-! ## C2 — embedding failure aborts the store with no partial row -/

/-- C2: whenever the pipeline reaches the embedding step (content valid,
extraction succeeded) and the embedding provider fails, `store` surfaces the
provider's error and the stored state is returned unchanged — no row is
persisted. -/
theorem c2_embed_failure_aborts_store
    (env : Env) (db : Db) (content : String) (userTags : List String)
    (fx : Extraction) (e : String)
    (hv : validateContent content = .ok content)
    (hx : env.extract content = .ok fx)
    (he : env.embed content = .error e) :
    store env db content userTags = (.error (.embedding e), db) := by
  simp only [store, hv, hx, he]

/-- Witness for `c2_embed_failure_aborts_store`: an unreachable provider
aborts storing `"hello"` into the empty database, which stays empty. -/
theorem c2_witness :
    store failingEmbedEnv emptyDb "hello" ["tag"]
      = (.error (.embedding "service unreachable"), emptyDb) :=
  c2_embed_failure_aborts_store failingEmbedEnv emptyDb "hello" ["tag"]
    { entities := [], actions := [], autoTags := [] } "service unreachable"
    rfl rfl rfl

/-! ## C5 — splash failure degrades to an empty splash list -/

/-- C5: when validation, extraction, embedding and the insert all succeed and
only the splash-discovery query fails, `store` still returns normally: the
persisted row (its id the database-assigned serial, its embedding the
provider's vector) paired with an empty splash list, and the row is in the
stored state. -/
theorem c5_splash_failure_swallowed
    (env : Env) (db : Db) (content : String) (userTags : List String)
    (fx : Extraction) (v : Vec) (msg : String)
    (hv : validateContent content = .ok content)
    (hx : env.extract content = .ok fx)
    (he : env.embed content = .ok v)
    (hs : ∀ rows r, env.splashQuery rows r = .error msg) :
    ∃ r : Row,
      store env db content userTags = (.ok (r, []), ⟨db.rows ++ [r], db.nextId + 1⟩)
        ∧ r.id = db.nextId ∧ r.embedding = some v := by
  simp only [store, hv, hx, he, hs]
  exact ⟨_, rfl, rfl, rfl⟩

/-- Witness for `c5_splash_failure_swallowed`: with a failing splash query,
storing `"hello"` returns the persisted row with id 1 and an empty splash
list. -/
theorem c5_witness :
    ∃ r : Row,
      store failingSplashEnv emptyDb "hello" []
          = (.ok (r, []), ⟨emptyDb.rows ++ [r], emptyDb.nextId + 1⟩)
        ∧ r.id = emptyDb.nextId ∧ r.embedding = some [1] :=
  c5_splash_failure_swallowed failingSplashEnv emptyDb "hello" []
    { entities := [], actions := [], autoTags := [] } [1] "connection reset"
    rfl rfl rfl (fun _ _ => rfl)

/-! ## C1 — splash discovery selects the open similarity donut -/

instance (d : Vec → Vec → ℚ) (v : Vec) :
    IsTotal Row (fun a b => distOf d v a ≤ distOf d v b) :=
  ⟨fun _ _ => le_total _ _⟩

instance (d : Vec → Vec → ℚ) (v : Vec) :
    IsTrans Row (fun a b => distOf d v a ≤ distOf d v b) :=
  ⟨fun _ _ _ => le_trans⟩

theorem mem_splash_filter (d : Vec → Vec → ℚ) (table : List Row) (m : Row) (v : Vec)
    (hm : m.embedding = some v) {r : Row} (hr : r ∈ getSplash d table m) :
    r ∈ table ∧ r.forgotten = false
      ∧ ∃ w, r.embedding = some w
        ∧ d w v < Rat.divInt 3 10 ∧ Rat.divInt 1 10 < d w v := by
  simp only [getSplash, hm] at hr
  have hr2 := (List.perm_insertionSort
    (fun a b => distOf d v a ≤ distOf d v b) _).mem_iff.1 (List.take_subset _ _ hr)
  obtain ⟨hmem, hcond⟩ := List.mem_filter.1 hr2
  cases hfo : r.forgotten with
  | false =>
    cases hemb : r.embedding with
    | none => rw [hfo, hemb] at hcond; simp at hcond
    | some w =>
      rw [hfo, hemb] at hcond
      simp only [Bool.not_false, Bool.true_and, Bool.and_eq_true,
        decide_eq_true_eq] at hcond
      exact ⟨hmem, rfl, w, rfl, hcond.1, hcond.2⟩
  | true => rw [hfo] at hcond; simp at hcond

/-- C1: for every distance function, committed table, and newly stored memory
with an embedding, every memory splash discovery returns is a table row that
is not forgotten and whose cosine similarity `1 - d` to the new embedding
lies strictly inside `(0.7, 0.9)`; the result is ordered by descending
similarity, has at most 3 elements, and — since the stored memory's distance
to its own embedding is 0 — never contains the memory being stored. -/
theorem c1_splash_donut (d : Vec → Vec → ℚ) (table : List Row) (m : Row) (v : Vec)
    (hm : m.embedding = some v) :
    (∀ r ∈ getSplash d table m,
        r ∈ table ∧ r.forgotten = false
          ∧ ∃ w, r.embedding = some w
            ∧ Rat.divInt 7 10 < 1 - d w v ∧ 1 - d w v < Rat.divInt 9 10)
      ∧ (getSplash d table m).length ≤ 3
      ∧ (getSplash d table m).Pairwise
          (fun a b => 1 - distOf d v b ≤ 1 - distOf d v a)
      ∧ (d v v = 0 → m ∉ getSplash d table m) := by
  refine ⟨?_, ?_, ?_, ?_⟩
  · intro r hr
    obtain ⟨hmem, hfo, w, hw, hlt, hgt⟩ := mem_splash_filter d table m v hm hr
    refine ⟨hmem, hfo, w, hw, ?_, ?_⟩
    · rw [Rat.divInt_eq_div] at hlt ⊢
      push_cast at hlt ⊢
      linarith
    · rw [Rat.divInt_eq_div] at hgt ⊢
      push_cast at hgt ⊢
      linarith
  · simp only [getSplash, hm]
    exact List.length_take_le 3 _
  · simp only [getSplash, hm]
    refine List.Pairwise.imp ?_
      (((List.sorted_insertionSort (fun a b => distOf d v a ≤ distOf d v b)
          _).sublist (List.take_sublist 3 _)))
    intro a b h
    exact sub_le_sub_left h 1
  · intro h0 hmem
    obtain ⟨-, -, w, hw, -, hgt⟩ := mem_splash_filter d table m v hm hmem
    rw [hm] at hw
    cases Option.some.inj hw
    rw [h0, Rat.divInt_eq_div] at hgt
    norm_num at hgt

/-- Witness for `c1_splash_donut`: with self-distance 0 and distance `1/5`
between the two distinct embeddings, splash discovery for `newRow` over a
table holding `splashRow` and `newRow` itself satisfies all four
conclusions. -/
theorem c1_witness :
    (∀ r ∈ getSplash donutDist [splashRow, newRow] newRow,
        r ∈ [splashRow, newRow] ∧ r.forgotten = false
          ∧ ∃ w, r.embedding = some w
            ∧ Rat.divInt 7 10 < 1 - donutDist w [2] ∧ 1 - donutDist w [2] < Rat.divInt 9 10)
      ∧ (getSplash donutDist [splashRow, newRow] newRow).length ≤ 3
      ∧ (getSplash donutDist [splashRow, newRow] newRow).Pairwise
          (fun a b => 1 - distOf donutDist [2] b ≤ 1 - distOf donutDist [2] a)
      ∧ (donutDist [2] [2] = 0 → newRow ∉ getSplash donutDist [splashRow, newRow] newRow) :=
  c1_splash_donut donutDist [splashRow, newRow] newRow [2] rfl

/-! ## Character-level facts for the tag canonicalizer -/

theorem char_eq_iff_toNat {c d : Char} : c = d ↔ c.toNat = d.toNat :=
  ⟨fun h => h ▸ rfl, fun h => Char.ext (UInt32.toNat.inj h)⟩

theorem char_le_iff_toNat {c d : Char} : c ≤ d ↔ c.toNat ≤ d.toNat := by
  rw [Char.le_def]
  exact ⟨fun h => h, fun h => h⟩

theorem toNat_charOfNat (n : Nat) (h : n < 55296) : (Char.ofNat n).toNat = n := by
  rw [Char.ofNat, dif_pos (Or.inl h)]
  simp [Char.ofNatAux, Char.toNat, UInt32.toNat, BitVec.toNat_ofNatLt]

theorem isSpaceChar_iff {c : Char} :
    isSpaceChar c = true
      ↔ (c.toNat = 32 ∨ c.toNat = 9 ∨ c.toNat = 10 ∨ c.toNat = 13
          ∨ c.toNat = 11 ∨ c.toNat = 12) := by
  unfold isSpaceChar
  simp only [Bool.or_eq_true, decide_eq_true_eq, char_eq_iff_toNat,
    show (' ' : Char).toNat = 32 from rfl, show ('\t' : Char).toNat = 9 from rfl,
    show ('\n' : Char).toNat = 10 from rfl, show ('\r' : Char).toNat = 13 from rfl,
    show ('\x0b' : Char).toNat = 11 from rfl, show ('\x0c' : Char).toNat = 12 from rfl]
  tauto

theorem allowedChar_iff {c : Char} :
    allowedChar c = true
      ↔ ((97 ≤ c.toNat ∧ c.toNat ≤ 122) ∨ (48 ≤ c.toNat ∧ c.toNat ≤ 57)
          ∨ c.toNat = 45) := by
  unfold allowedChar
  simp only [Bool.or_eq_true, Bool.and_eq_true, decide_eq_true_eq,
    char_le_iff_toNat, char_eq_iff_toNat,
    show ('a' : Char).toNat = 97 from rfl, show ('z' : Char).toNat = 122 from rfl,
    show ('0' : Char).toNat = 48 from rfl, show ('9' : Char).toNat = 57 from rfl,
    show ('-' : Char).toNat = 45 from rfl]
  tauto

theorem upperChar_iff {c : Char} :
    ('A' ≤ c ∧ c ≤ 'Z') ↔ (65 ≤ c.toNat ∧ c.toNat ≤ 90) := by
  simp only [char_le_iff_toNat,
    show ('A' : Char).toNat = 65 from rfl, show ('Z' : Char).toNat = 90 from rfl]

theorem allowed_not_space {c : Char} (h : allowedChar c = true) :
    isSpaceChar c = false := by
  cases hs : isSpaceChar c with
  | false => rfl
  | true =>
    exfalso
    have h1 := isSpaceChar_iff.1 hs
    have h2 := allowedChar_iff.1 h
    omega

theorem allowed_ne_space {c : Char} (h : allowedChar c = true) : c ≠ ' ' := by
  intro he
  subst he
  exact absurd h (by decide)

theorem allowed_pyLowerChar_fix {c : Char} (h : allowedChar c = true) :
    pyLowerChar c = c := by
  unfold pyLowerChar
  rw [if_neg]
  intro hu
  have h1 := upperChar_iff.1 hu
  have h2 := allowedChar_iff.1 h
  omega

theorem pyLowerChar_idem (c : Char) :
    pyLowerChar (pyLowerChar c) = pyLowerChar c := by
  by_cases h : 'A' ≤ c ∧ c ≤ 'Z'
  · have h1 := upperChar_iff.1 h
    have h2 : (Char.ofNat (c.toNat + 32)).toNat = c.toNat + 32 :=
      toNat_charOfNat _ (by omega)
    have hlc : pyLowerChar c = Char.ofNat (c.toNat + 32) := by
      rw [pyLowerChar, if_pos h]
    rw [hlc, pyLowerChar, if_neg]
    intro hu
    have h3 := upperChar_iff.1 hu
    omega
  · have hlc : pyLowerChar c = c := by rw [pyLowerChar, if_neg h]
    rw [hlc]
    exact hlc

theorem isSpaceChar_pyLowerChar (c : Char) :
    isSpaceChar (pyLowerChar c) = isSpaceChar c := by
  by_cases h : 'A' ≤ c ∧ c ≤ 'Z'
  · have h1 := upperChar_iff.1 h
    have h2 : (Char.ofNat (c.toNat + 32)).toNat = c.toNat + 32 :=
      toNat_charOfNat _ (by omega)
    have hlc : pyLowerChar c = Char.ofNat (c.toNat + 32) := by
      rw [pyLowerChar, if_pos h]
    rw [hlc]
    cases hs : isSpaceChar c with
    | false =>
      cases hs2 : isSpaceChar (Char.ofNat (c.toNat + 32)) with
      | false => rfl
      | true => have := isSpaceChar_iff.1 hs2; omega
    | true => have := isSpaceChar_iff.1 hs; omega
  · have hlc : pyLowerChar c = c := by rw [pyLowerChar, if_neg h]
    rw [hlc]

/-! ## String-level facts -/

theorem map_eq_self_of_fix {f : Char → Char} :
    ∀ {l : List Char}, (∀ c ∈ l, f c = c) → l.map f = l
  | [], _ => rfl
  | a :: t, h => by
    rw [List.map_cons, h a (List.mem_cons_self a t),
      map_eq_self_of_fix (fun c hc => h c (List.mem_cons_of_mem _ hc))]

theorem dropWhile_eq_self_of_not {p : Char → Bool} {l : List Char}
    (h : ∀ c ∈ l, p c = false) : l.dropWhile p = l := by
  cases l with
  | nil => rfl
  | cons a t =>
    rw [List.dropWhile_cons, h a (List.mem_cons_self a t)]
    simp

theorem stripEnds_eq_self {l : List Char} (h : ∀ c ∈ l, isSpaceChar c = false) :
    stripEnds isSpaceChar l = l := by
  unfold stripEnds
  rw [dropWhile_eq_self_of_not h,
    dropWhile_eq_self_of_not (fun c hc => h c (List.mem_reverse.1 hc)),
    List.reverse_reverse]

theorem pyStrip_eq_self {s : String} (h : ∀ c ∈ s.data, isSpaceChar c = false) :
    pyStrip s = s := by
  cases s with
  | mk l =>
    show (⟨stripEnds isSpaceChar l⟩ : String) = ⟨l⟩
    rw [stripEnds_eq_self h]

theorem pyLower_eq_self {s : String} (h : ∀ c ∈ s.data, pyLowerChar c = c) :
    pyLower s = s := by
  cases s with
  | mk l =>
    show (⟨l.map pyLowerChar⟩ : String) = ⟨l⟩
    rw [map_eq_self_of_fix h]

theorem pyLower_idem (s : String) : pyLower (pyLower s) = pyLower s := by
  apply pyLower_eq_self
  intro c hc
  obtain ⟨d, -, rfl⟩ := List.mem_map.1 hc
  exact pyLowerChar_idem d

theorem spaceToHyphen_eq_self {s : String} (h : ∀ c ∈ s.data, c ≠ ' ') :
    spaceToHyphen s = s := by
  cases s with
  | mk l =>
    show (⟨_⟩ : String) = ⟨l⟩
    rw [map_eq_self_of_fix]
    intro c hc
    exact if_neg (h c hc)

theorem keepAllowed_eq_self {s : String} (h : ∀ c ∈ s.data, allowedChar c = true) :
    keepAllowed s = s := by
  cases s with
  | mk l =>
    show (⟨l.filter allowedChar⟩ : String) = ⟨l⟩
    rw [List.filter_eq_self.2 h]

theorem mem_keepAllowed {s : String} {c : Char} (h : c ∈ (keepAllowed s).data) :
    allowedChar c = true :=
  (List.mem_filter.1 h).2

theorem mem_survivingLemmas {L : Lemmatizer} {t : String} {l : String}
    (h : l ∈ survivingLemmas L t) :
    l ≠ "" ∧ ∀ c ∈ l.data, allowedChar c = true := by
  unfold survivingLemmas at h
  obtain ⟨tok, -, hf⟩ := List.mem_filterMap.1 h
  by_cases hc : (tok.is_stop || tok.is_punct) = true
  · rw [if_pos hc] at hf
    exact absurd hf (Option.noConfusion)
  · rw [if_neg hc] at hf
    by_cases he : keepAllowed (pyStrip tok.lemma_) = ""
    · simp only [he] at hf
      simp at hf
    · simp only [if_neg he] at hf
      cases Option.some.inj hf
      exact ⟨he, fun c hc2 => mem_keepAllowed hc2⟩

theorem mem_intersperse {α : Type} {sep x : α} :
    ∀ {l : List α}, x ∈ List.intersperse sep l → x = sep ∨ x ∈ l
  | [], h => by simp at h
  | [a], h => by
    simp only [List.intersperse_singleton] at h
    exact Or.inr h
  | a :: b :: t, h => by
    rw [List.intersperse_cons_cons] at h
    rcases List.mem_cons.1 h with h1 | h2
    · exact Or.inr (h1 ▸ List.mem_cons_self _ _)
    · rcases List.mem_cons.1 h2 with h3 | h4
      · exact Or.inl h3
      · rcases mem_intersperse h4 with h5 | h6
        · exact Or.inl h5
        · exact Or.inr (List.mem_cons_of_mem _ h6)

theorem mem_joinHyphen {ls : List String} {c : Char}
    (h : c ∈ (joinHyphen ls).data) : c = '-' ∨ ∃ l ∈ ls, c ∈ l.data := by
  unfold joinHyphen at h
  rw [List.intercalate] at h
  obtain ⟨l', hl', hc⟩ := List.mem_flatten.1 h
  rcases mem_intersperse hl' with h1 | h2
  · subst h1
    left
    simpa using hc
  · obtain ⟨s, hs, rfl⟩ := List.mem_map.1 h2
    right
    exact ⟨s, hs, hc⟩

theorem joinHyphen_ne_empty {l0 : String} {ls : List String} (h0 : l0 ≠ "") :
    joinHyphen (l0 :: ls) ≠ "" := by
  cases ls with
  | nil =>
    cases l0 with
    | mk d =>
      simp only [joinHyphen, List.intercalate, List.map, List.intersperse_singleton,
        List.flatten, ne_eq, String.ext_iff, List.append_nil] at h0 ⊢
      simpa using h0
  | cons l1 ls2 =>
    simp only [joinHyphen, List.intercalate, List.map, List.intersperse_cons_cons,
      List.flatten, ne_eq, String.ext_iff]
    simp

/-! ## The lexicographic sort used by canonicalization -/

theorem charListLe_total :
    ∀ (as bs : List Char), charListLe as bs = true ∨ charListLe bs as = true
  | [], bs => by
    left
    simp [charListLe]
  | a :: as, [] => by
    right
    simp [charListLe]
  | a :: as, b :: bs => by
    by_cases hab : a = b
    · subst hab
      simp only [charListLe, if_pos rfl]
      exact charListLe_total as bs
    · simp only [charListLe, if_neg hab, if_neg (Ne.symm hab)]
      rcases lt_or_gt_of_ne hab with h | h
      · left; exact decide_eq_true h
      · right; exact decide_eq_true h

theorem charListLe_trans :
    ∀ (as bs cs : List Char), charListLe as bs = true → charListLe bs cs = true →
      charListLe as cs = true
  | [], _, _ => fun _ _ => rfl
  | a :: as, [], cs => by
    intro h
    simp [charListLe] at h
  | a :: as, b :: bs, [] => by
    intro _ h
    simp [charListLe] at h
  | a :: as, b :: bs, c :: cs => by
    by_cases h1 : a = b <;> by_cases h2 : b = c
    · subst h1; subst h2
      simp only [charListLe, if_pos rfl]
      exact charListLe_trans as bs cs
    · subst h1
      simp only [charListLe, if_pos rfl, if_neg h2]
      exact fun _ hb => hb
    · subst h2
      simp only [charListLe, if_neg h1, if_pos rfl]
      exact fun ha _ => ha
    · simp only [charListLe, if_neg h1, if_neg h2]
      intro ha hb
      have hac : a < c := lt_trans (of_decide_eq_true ha) (of_decide_eq_true hb)
      rw [if_neg (ne_of_lt hac)]
      exact decide_eq_true hac

theorem charListLe_antisymm :
    ∀ (as bs : List Char), charListLe as bs = true → charListLe bs as = true →
      as = bs
  | [], [] => fun _ _ => rfl
  | [], b :: bs => by
    intro _ h
    simp [charListLe] at h
  | a :: as, [] => by
    intro h
    simp [charListLe] at h
  | a :: as, b :: bs => by
    by_cases h : a = b
    · subst h
      simp only [charListLe, if_pos rfl]
      intro h1 h2
      rw [charListLe_antisymm as bs h1 h2]
    · simp only [charListLe, if_neg h, if_neg (Ne.symm h)]
      intro h1 h2
      exact absurd (lt_trans (of_decide_eq_true h1) (of_decide_eq_true h2))
        (lt_irrefl a)

instance : IsTotal String (fun a b => strLe a b = true) :=
  ⟨fun a b => charListLe_total a.data b.data⟩

instance : IsTrans String (fun a b => strLe a b = true) :=
  ⟨fun a b c => charListLe_trans a.data b.data c.data⟩

instance : IsAntisymm String (fun a b => strLe a b = true) :=
  ⟨fun a b h1 h2 => by
    cases a with
    | mk d1 =>
      cases b with
      | mk d2 => exact congrArg String.mk (charListLe_antisymm d1 d2 h1 h2)⟩

theorem sortStrings_perm (ls : List String) : List.Perm (sortStrings ls) ls :=
  List.perm_insertionSort _ ls

theorem sortStrings_sorted (ls : List String) :
    List.Sorted (fun a b => strLe a b = true) (sortStrings ls) :=
  List.sorted_insertionSort _ ls

theorem sortStrings_idem (ls : List String) :
    sortStrings (sortStrings ls) = sortStrings ls :=
  List.eq_of_perm_of_sorted (sortStrings_perm (sortStrings ls))
    (sortStrings_sorted _) (sortStrings_sorted _)

theorem sortStrings_congr_perm {la lb : List String} (h : List.Perm la lb) :
    sortStrings la = sortStrings lb :=
  List.eq_of_perm_of_sorted ((sortStrings_perm la).trans
    (h.trans (sortStrings_perm lb).symm)) (sortStrings_sorted _) (sortStrings_sorted _)

theorem sortStrings_eq_nil_iff {ls : List String} : sortStrings ls = [] ↔ ls = [] := by
  constructor
  · intro h
    have := sortStrings_perm ls
    rw [h] at this
    exact this.symm.eq_nil
  · intro h
    subst h
    rfl

/-! ## Branch computation lemmas for `Tag.normalize` -/

theorem normalize_of_empty {L : Lemmatizer} {raw : String}
    (h : pyLower (pyStrip raw) = "") : Tag.normalize L raw = "" := by
  simp only [Tag.normalize]
  rw [if_pos h]

theorem normalize_of_main {L : Lemmatizer} {raw : String}
    (h1 : pyLower (pyStrip raw) ≠ "")
    (h2 : survivingLemmas L (pyLower (pyStrip raw)) ≠ []) :
    Tag.normalize L raw
      = joinHyphen (sortStrings (survivingLemmas L (pyLower (pyStrip raw)))) := by
  simp only [Tag.normalize]
  rw [if_neg h1, if_neg h2]

theorem normalize_of_fb1 {L : Lemmatizer} {raw : String}
    (h1 : pyLower (pyStrip raw) ≠ "")
    (h2 : survivingLemmas L (pyLower (pyStrip raw)) = [])
    (h3 : keepAllowed (pyLower (pyStrip raw)) ≠ "") :
    Tag.normalize L raw = spaceToHyphen (keepAllowed (pyLower (pyStrip raw))) := by
  simp only [Tag.normalize]
  rw [if_neg h1, if_pos h2, if_pos h3]

theorem normalize_of_fb2 {L : Lemmatizer} {raw : String}
    (h1 : pyLower (pyStrip raw) ≠ "")
    (h2 : survivingLemmas L (pyLower (pyStrip raw)) = [])
    (h3 : keepAllowed (pyLower (pyStrip raw)) = "") :
    Tag.normalize L raw = spaceToHyphen (pyLower (pyStrip raw)) := by
  simp only [Tag.normalize]
  rw [if_neg h1, if_pos h2, if_neg (fun hx => hx h3)]

/-- Characters of a canonical form lie in `[a-z0-9-]`, except in the branch
where no lemma survives and the stripped text is empty. -/
theorem normalize_chars_allowed {L : Lemmatizer} {raw : String}
    (h : survivingLemmas L (pyLower (pyStrip raw)) ≠ []
          ∨ keepAllowed (pyLower (pyStrip raw)) ≠ "") :
    ∀ c ∈ (Tag.normalize L raw).data, allowedChar c = true := by
  intro c hc
  by_cases ht : pyLower (pyStrip raw) = ""
  · rw [normalize_of_empty ht] at hc
    simp at hc
  · by_cases hl : survivingLemmas L (pyLower (pyStrip raw)) = []
    · rcases h with h' | h'
      · exact absurd hl h'
      · rw [normalize_of_fb1 ht hl h'] at hc
        obtain ⟨d, hd, rfl⟩ := List.mem_map.1 hc
        by_cases hsp : d = ' '
        · rw [if_pos hsp]
          decide
        · rw [if_neg hsp]
          exact mem_keepAllowed hd
    · rw [normalize_of_main ht hl] at hc
      rcases mem_joinHyphen hc with h1 | ⟨l, hlm, hcl⟩
      · subst h1
        decide
      · exact (mem_survivingLemmas ((sortStrings_perm _).subset hlm)).2 c hcl

theorem mem_addTag {L : Lemmatizer} {tags : List String} {r t : String} :
    t ∈ addTag L tags r ↔ t ∈ tags ∨ Tag.normalize L r = t := by
  unfold addTag
  by_cases h : Tag.normalize L r ∈ tags
  · rw [if_pos h]
    constructor
    · exact Or.inl
    · rintro (ht | rfl)
      · exact ht
      · exact h
  · rw [if_neg h]
    simp [List.mem_append, eq_comm]

theorem mem_addTags {L : Lemmatizer} :
    ∀ (raws : List String) (tags : List String) (t : String),
      t ∈ addTags L tags raws ↔ t ∈ tags ∨ ∃ raw ∈ raws, Tag.normalize L raw = t
  | [], tags, t => by simp [addTags]
  | r :: rs, tags, t => by
    show t ∈ addTags L (addTag L tags r) rs ↔ _
    rw [mem_addTags rs (addTag L tags r) t, mem_addTag]
    simp only [List.mem_cons]
    constructor
    · rintro ((ht | hr) | ⟨raw, hraw, hn⟩)
      · exact Or.inl ht
      · exact Or.inr ⟨r, Or.inl rfl, hr⟩
      · exact Or.inr ⟨raw, Or.inr hraw, hn⟩
    · rintro (ht | ⟨raw, (rfl | hraw), hn⟩)
      · exact Or.inl (Or.inl ht)
      · exact Or.inl (Or.inr hn)
      · exact Or.inr ⟨raw, hraw, hn⟩

/-! ## C10 — tags contain only canonical forms over `[a-z0-9-]` -/

/-- C10, counterexample: for a raw input like `"!?"` the lemmatizer yields
only punctuation tokens, the stripped text is empty, and `_normalize`'s final
fallback returns the raw lowered text itself — so the tag set contains
`"!?"`, whose characters are outside `[a-z0-9-]`, violating the claimed
character-class invariant. -/
theorem c10_counterexample :
    addTags spacyLike [] ["!?"] = ["!?"]
      ∧ '!' ∈ ("!?" : String).data ∧ allowedChar '!' = false := by
  decide

/-- C10, amended: after any sequence of tag additions starting from the empty
tag set, every element of the tag set is the output of the canonicalization
algorithm on some raw input (never the un-normalized input itself), and its
characters lie in `[a-z0-9-]` *provided* that input kept at least one lemma
or a nonempty stripped form — in the remaining fallback branch (no surviving
lemma and empty stripped text) the algorithm returns the raw lowered text
with spaces hyphenated, which may contain arbitrary characters. -/
theorem c10_amended :
    (∀ (L : Lemmatizer) (raws : List String) (t : String),
        t ∈ addTags L [] raws → ∃ raw ∈ raws, t = Tag.normalize L raw)
    ∧ (∀ (L : Lemmatizer) (raw : String),
        (survivingLemmas L (pyLower (pyStrip raw)) ≠ []
          ∨ keepAllowed (pyLower (pyStrip raw)) ≠ "") →
        ∀ c ∈ (Tag.normalize L raw).data, allowedChar c = true) := by
  constructor
  · intro L raws t ht
    rcases (mem_addTags raws [] t).1 ht with h | ⟨raw, hraw, hn⟩
    · simp at h
    · exact ⟨raw, hraw, hn.symm⟩
  · intro L raw h
    exact normalize_chars_allowed h

/-- Witness for `c10_amended`: the tag stored for raw input `"Python tips"`
is its canonical form, made only of `[a-z0-9-]` characters. -/
theorem c10_amended_witness :
    (∃ raw ∈ (["Python tips"] : List String),
        ("python-tips" : String) = Tag.normalize spacyLike raw)
    ∧ (∀ c ∈ (Tag.normalize spacyLike "Python tips").data, allowedChar c = true) :=
  ⟨c10_amended.1 spacyLike ["Python tips"] "python-tips" (by decide),
   c10_amended.2 spacyLike "Python tips" (Or.inl (by decide))⟩

/-! ## C9 — canonicalization is order-insensitive; idempotent only conditionally -/

/-- C9, counterexample: canonicalization is *not* idempotent on the code.
For `"! !"` the lemmatizer (behaving as spaCy does: punctuation-only tokens
are flagged `is_punct`) keeps no lemma and the stripped text is empty, so
`_normalize` returns the raw text with spaces hyphenated: `"!-!"`.
Canonicalizing that again strips it to `"-"` ≠ `"!-!"`. -/
theorem c9_counterexample :
    Tag.normalize spacyLike (Tag.normalize spacyLike "! !")
      ≠ Tag.normalize spacyLike "! !" := by
  decide

/-- C9, amended: (1) order-insensitivity as claimed — two raw tags whose
surviving lemma lists are permutations of each other (the same significant
words in any order) canonicalize identically; (2) idempotence holds under
the lemmatizer contract that re-tokenizing a canonical form recovers its
sorted lemma list (`hrec`), except in the fallback branch where no lemma
survives and the stripped text is empty *and* the raw text contains
whitespace — exactly the case the counterexample exhibits, excluded here by
requiring that text to be whitespace-free (`hsp`). -/
theorem c9_amended :
    (∀ (L : Lemmatizer) (a b : String),
        pyLower (pyStrip a) ≠ "" → pyLower (pyStrip b) ≠ "" →
        survivingLemmas L (pyLower (pyStrip a)) ≠ [] →
        List.Perm (survivingLemmas L (pyLower (pyStrip a)))
          (survivingLemmas L (pyLower (pyStrip b))) →
        Tag.normalize L a = Tag.normalize L b)
    ∧ (∀ (L : Lemmatizer) (x : String),
        survivingLemmas L (Tag.normalize L x)
            = sortStrings (survivingLemmas L (pyLower (pyStrip x))) →
        (survivingLemmas L (pyLower (pyStrip x)) = [] →
          keepAllowed (pyLower (pyStrip x)) = "" →
          ∀ c ∈ (pyLower (pyStrip x)).data, isSpaceChar c = false) →
        Tag.normalize L (Tag.normalize L x) = Tag.normalize L x) := by
  constructor
  · intro L a b ha hb hne hperm
    have hbne : survivingLemmas L (pyLower (pyStrip b)) ≠ [] :=
      fun h => hne (List.Perm.eq_nil (h ▸ hperm))
    rw [normalize_of_main ha hne, normalize_of_main hb hbne,
      sortStrings_congr_perm hperm]
  · intro L x hrec hsp
    by_cases ht : pyLower (pyStrip x) = ""
    · rw [normalize_of_empty ht]
      exact normalize_of_empty rfl
    · by_cases hl : survivingLemmas L (pyLower (pyStrip x)) = []
      · by_cases hcl : keepAllowed (pyLower (pyStrip x)) = ""
        · -- fallback-of-fallback: the raw lowered text, whitespace-free by hsp
          have hnosp : ∀ c ∈ (pyLower (pyStrip x)).data, isSpaceChar c = false :=
            hsp hl hcl
          have hne' : ∀ c ∈ (pyLower (pyStrip x)).data, c ≠ ' ' := by
            intro c hc he
            subst he
            exact absurd (hnosp _ hc) (by decide)
          have hsth : spaceToHyphen (pyLower (pyStrip x)) = pyLower (pyStrip x) :=
            spaceToHyphen_eq_self hne'
          have hr := normalize_of_fb2 ht hl hcl
          rw [hr, hsth]
          have hstr : pyStrip (pyLower (pyStrip x)) = pyLower (pyStrip x) :=
            pyStrip_eq_self hnosp
          have htx : pyLower (pyStrip (pyLower (pyStrip x))) = pyLower (pyStrip x) := by
            rw [hstr, pyLower_idem]
          have hrl : survivingLemmas L (pyLower (pyStrip x)) = [] := hl
          rw [normalize_of_fb2 (by rw [htx]; exact ht)
            (by rw [htx]; exact hl) (by rw [htx]; exact hcl), htx, hsth]
        · -- fallback on the stripped text: a fixed point of the pipeline
          have hallow : ∀ c ∈ (keepAllowed (pyLower (pyStrip x))).data,
              allowedChar c = true := fun c hc => mem_keepAllowed hc
          have hsth : spaceToHyphen (keepAllowed (pyLower (pyStrip x)))
              = keepAllowed (pyLower (pyStrip x)) :=
            spaceToHyphen_eq_self (fun c hc => allowed_ne_space (hallow c hc))
          have hr := normalize_of_fb1 ht hl hcl
          rw [hr, hsth]
          have hstr : pyStrip (keepAllowed (pyLower (pyStrip x)))
              = keepAllowed (pyLower (pyStrip x)) :=
            pyStrip_eq_self (fun c hc => allowed_not_space (hallow c hc))
          have hlow : pyLower (keepAllowed (pyLower (pyStrip x)))
              = keepAllowed (pyLower (pyStrip x)) :=
            pyLower_eq_self (fun c hc => allowed_pyLowerChar_fix (hallow c hc))
          have htx : pyLower (pyStrip (keepAllowed (pyLower (pyStrip x))))
              = keepAllowed (pyLower (pyStrip x)) := by rw [hstr, hlow]
          have hrl : survivingLemmas L (keepAllowed (pyLower (pyStrip x))) = [] := by
            rw [hr, hsth] at hrec
            rw [hrec, hl]
            rfl
          have hka : keepAllowed (keepAllowed (pyLower (pyStrip x)))
              = keepAllowed (pyLower (pyStrip x)) := keepAllowed_eq_self hallow
          rw [normalize_of_fb1 (by rw [htx]; exact hcl)
            (by rw [htx]; exact hrl) (by rw [htx, hka]; exact hcl), htx, hka, hsth]
      · -- main branch: sorted lemma join, recovered by the contract
        have hr := normalize_of_main ht hl
        have hmem : ∀ l ∈ sortStrings (survivingLemmas L (pyLower (pyStrip x))),
            l ≠ "" ∧ ∀ c ∈ l.data, allowedChar c = true :=
          fun l hlm => mem_survivingLemmas ((sortStrings_perm _).subset hlm)
        have hrchars : ∀ c ∈ (joinHyphen (sortStrings
            (survivingLemmas L (pyLower (pyStrip x))))).data, allowedChar c = true := by
          intro c hc
          rcases mem_joinHyphen hc with h1 | ⟨l, hlm, hcl2⟩
          · subst h1; decide
          · exact (hmem l hlm).2 c hcl2
        have hrne : joinHyphen (sortStrings
            (survivingLemmas L (pyLower (pyStrip x)))) ≠ "" := by
          cases hso : sortStrings (survivingLemmas L (pyLower (pyStrip x))) with
          | nil => exact absurd (sortStrings_eq_nil_iff.1 hso) hl
          | cons l0 rest =>
            exact joinHyphen_ne_empty
              (hmem l0 (by rw [hso]; exact List.mem_cons_self _ _)).1
        have hstr : pyStrip (joinHyphen (sortStrings
            (survivingLemmas L (pyLower (pyStrip x)))))
              = joinHyphen (sortStrings (survivingLemmas L (pyLower (pyStrip x)))) :=
          pyStrip_eq_self (fun c hc => allowed_not_space (hrchars c hc))
        have hlow : pyLower (joinHyphen (sortStrings
            (survivingLemmas L (pyLower (pyStrip x)))))
              = joinHyphen (sortStrings (survivingLemmas L (pyLower (pyStrip x)))) :=
          pyLower_eq_self (fun c hc => allowed_pyLowerChar_fix (hrchars c hc))
        have htx : pyLower (pyStrip (joinHyphen (sortStrings
            (survivingLemmas L (pyLower (pyStrip x))))))
              = joinHyphen (sortStrings (survivingLemmas L (pyLower (pyStrip x)))) := by
          rw [hstr, hlow]
        have hrl : survivingLemmas L (joinHyphen (sortStrings
            (survivingLemmas L (pyLower (pyStrip x)))))
              = sortStrings (survivingLemmas L (pyLower (pyStrip x))) := by
          rw [← hr]
          exact hrec
        have hsne : sortStrings (survivingLemmas L (pyLower (pyStrip x))) ≠ [] :=
          fun h => hl (sortStrings_eq_nil_iff.1 h)
        rw [hr, normalize_of_main (by rw [htx]; exact hrne)
          (by rw [htx, hrl]; exact hsne), htx, hrl, sortStrings_idem]

/-- Witness for `c9_amended`: `"Python tips"` and `"tips  Python"`
canonicalize identically, and canonicalizing `"Hello"` is idempotent. -/
theorem c9_amended_witness :
    Tag.normalize spacyLike "Python tips" = Tag.normalize spacyLike "tips  Python"
    ∧ Tag.normalize spacyLike (Tag.normalize spacyLike "Hello")
        = Tag.normalize spacyLike "Hello" :=
  ⟨c9_amended.1 spacyLike "Python tips" "tips  Python"
      (by decide) (by decide) (by decide) (by decide),
   c9_amended.2 spacyLike "Hello" (by decide) (by decide)⟩

/-! ## C8 — canonicalizeAll: dedup in first-occurrence order -/

theorem dedup_append_singleton (c : String) :
    ∀ xs : List String,
      (xs ++ [c]).dedup = (xs.filter (fun x => x ≠ c)).dedup ++ [c]
  | [] => by simp
  | a :: xs => by
    rw [List.cons_append]
    by_cases hac : a = c
    · subst hac
      rw [List.dedup_cons_of_mem (by simp), dedup_append_singleton a xs,
        List.filter_cons]
      simp
    · by_cases hax : a ∈ xs
      · rw [List.dedup_cons_of_mem (List.mem_append.2 (Or.inl hax)),
          dedup_append_singleton c xs, List.filter_cons, if_pos (by simp [hac]),
          List.dedup_cons_of_mem (List.mem_filter.2 ⟨hax, by simp [hac]⟩)]
      · have hnotin : a ∉ xs ++ [c] := by simp [hax, hac]
        rw [List.dedup_cons_of_not_mem hnotin, dedup_append_singleton c xs,
          List.filter_cons, if_pos (by simp [hac]),
          List.dedup_cons_of_not_mem (fun hmm => hax (List.mem_filter.1 hmm).1),
          List.cons_append]

theorem filter_not_mem_cons (c : String) (seen : List String) (l : List String) :
    (l.filter (fun x => x ∉ seen)).filter (fun x => x ≠ c)
      = l.filter (fun x => x ∉ c :: seen) := by
  rw [List.filter_filter]
  apply List.filter_congr
  intro x _
  rw [← Bool.decide_and, decide_eq_decide]
  simp [not_or, And.comm]

theorem dedupFrom_eq :
    ∀ (l : List String) (seen : List String),
      dedupFrom seen l = ((l.filter (fun c => c ∉ seen)).reverse.dedup).reverse
  | [], seen => by simp [dedupFrom]
  | c :: cs, seen => by
    by_cases hc : c ∈ seen
    · simp only [dedupFrom]
      rw [if_pos hc, dedupFrom_eq cs seen, List.filter_cons,
        if_neg (by simp [hc])]
    · simp only [dedupFrom]
      rw [if_neg hc, dedupFrom_eq cs (c :: seen), List.filter_cons,
        if_pos (by simp [hc]), List.reverse_cons, dedup_append_singleton,
        List.reverse_append, List.filter_reverse, filter_not_mem_cons]
      rfl

theorem embedTagsGo_eq (L : Lemmatizer) :
    ∀ (ts : List String) (seen : List String),
      embedTagsGo L seen ts = dedupFrom seen (canonList L ts)
  | [], seen => by simp [embedTagsGo, canonList, dedupFrom]
  | t :: ts, seen => by
    simp only [embedTagsGo]
    by_cases h1 : t = ""
    · rw [if_neg (fun hx => hx h1), embedTagsGo_eq L ts seen]
      have : canonList L (t :: ts) = canonList L ts := by
        simp [canonList, List.filter_cons, h1]
      rw [this]
    · rw [if_pos h1]
      have hcl : canonList L (t :: ts)
          = if Tag.normalize L t ≠ "" then Tag.normalize L t :: canonList L ts
            else canonList L ts := by
        simp only [canonList, List.filter_cons]
        rw [if_pos (decide_eq_true (p := t ≠ "") h1), List.map_cons,
          List.filter_cons]
        by_cases h2 : Tag.normalize L t = ""
        · rw [if_neg (by simp [h2]), if_neg (fun hx => hx h2)]
        · rw [if_pos (by simp [h2]), if_pos h2]
      by_cases h2 : Tag.normalize L t = ""
      · rw [if_neg (fun hx => hx.1 h2), embedTagsGo_eq L ts seen, hcl,
          if_neg (fun hx => hx h2)]
      · by_cases h3 : Tag.normalize L t ∈ seen
        · rw [if_neg (fun hx => hx.2 h3), embedTagsGo_eq L ts seen, hcl,
            if_pos h2]
          simp only [dedupFrom]
          rw [if_pos h3]
        · rw [if_pos ⟨h2, h3⟩, embedTagsGo_eq L ts (Tag.normalize L t :: seen),
            hcl, if_pos h2]
          simp only [dedupFrom]
          rw [if_neg h3]

theorem embedTags_eq_keepFirsts (L : Lemmatizer) (ts : List String) :
    embedTags L ts = keepFirsts (canonList L ts) := by
  rw [embedTags, embedTagsGo_eq, dedupFrom_eq, keepFirsts]
  have : (canonList L ts).filter (fun c => c ∉ ([] : List String))
      = canonList L ts :=
    List.filter_eq_self.2 (fun a _ => by simp)
  rw [this]

/-- C8, counterexample: the claim extends first-occurrence order and silent
dropping of whitespace-only inputs to "the tag-collection path used when
storing a memory", but `Memory.add_tags` collects tags into a *set*
serialized in sorted order — `["b", "a"]` comes back as `["a", "b"]`, not in
first-occurrence order — and a whitespace-only tag is not dropped: it is
stored as the empty-string tag. -/
theorem c8_counterexample :
    getTags (addTags spacyLike [] ["b", "a"])
        ≠ keepFirsts (canonList spacyLike ["b", "a"])
      ∧ getTags (addTags spacyLike [] [" "]) = [""] := by
  decide

/-- C8, amended: `canonicalizeAll` (`embed_tags`) returns exactly the
distinct nonempty canonical forms of the nonempty raw inputs in
first-occurrence order of the distinct canonical values. The store path
deduplicates by canonical value as well, but returns the tag set in sorted
order rather than first-occurrence order, and maps whitespace-only inputs to
the empty-string tag instead of dropping them. -/
theorem c8_amended :
    (∀ (L : Lemmatizer) (ts : List String),
        embedTags L ts = keepFirsts (canonList L ts))
    ∧ (∀ (L : Lemmatizer) (raws : List String) (t : String),
        t ∈ getTags (addTags L [] raws) ↔ ∃ raw ∈ raws, Tag.normalize L raw = t)
    ∧ (∀ (L : Lemmatizer) (raws : List String),
        (getTags (addTags L [] raws)).Pairwise (fun a b => strLe a b = true)) := by
  refine ⟨embedTags_eq_keepFirsts, ?_, ?_⟩
  · intro L raws t
    rw [getTags, (List.perm_insertionSort _ _).mem_iff, mem_addTags]
    simp
  · intro L raws
    exact List.sorted_insertionSort _ _

end Pond
